import Mathlib

/-!
# Verification of the LogicRs circuit editor core

A shallow embedding of the clipboard (copy/paste), project
(serialization, dependency collection) and simulation-lifecycle logic of
the LogicRs digital-logic editor, together with proofs of the spec's
claims about them.

The embedding follows `src/application/clipboard.rs`, `src/project.rs`
and `src/application/template.rs`.  Data-model types (`Block`,
`Connection`, `Plot`, `Module`, identifiers, 2-D vectors) live in other
files of the repository and are modelled from the specification's data
model (spec section 3); each such definition carries a doc comment saying
so.
-/

namespace LogicRs

/-- Modelled from the spec: `Identifier` is an opaque, globally unique,
equality-comparable value produced by the identifier allocator.  We model
identifiers as natural numbers and the allocator (`Id::new`) as a counter:
an allocator state `ctr` has handed out exactly the identifiers `< ctr`,
and allocation returns `ctr` and advances the counter. -/
abbrev BlockID := Nat

/-- Modelled from the spec: connection identifiers, same allocator. -/
abbrev ConnectionID := Nat

/-- Modelled from the spec: `Coordinate2D` (`renderer::vector::Vector2`),
a two-component coordinate with componentwise addition/subtraction and the
derived (lexicographic) order used by `Iterator::min` in
`prepare_pasting`.  Coordinates are modelled as integers. -/
structure Vector2 where
  x : Int
  y : Int
deriving DecidableEq

instance : Add Vector2 := ⟨fun a b => ⟨a.x + b.x, a.y + b.y⟩⟩
instance : Sub Vector2 := ⟨fun a b => ⟨a.x - b.x, a.y - b.y⟩⟩
instance : Inhabited Vector2 := ⟨⟨0, 0⟩⟩

@[simp] theorem Vector2.add_def (a b : Vector2) :
    a + b = ⟨a.x + b.x, a.y + b.y⟩ := rfl

@[simp] theorem Vector2.sub_def (a b : Vector2) :
    a - b = ⟨a.x - b.x, a.y - b.y⟩ := rfl

/-- The lexicographic order that `#[derive(PartialOrd, Ord)]` produces on a
two-field struct in Rust. -/
def Vector2.lexLe (a b : Vector2) : Prop :=
  a.x < b.x ∨ (a.x = b.x ∧ a.y ≤ b.y)

instance : DecidablePred fun p : Vector2 × Vector2 => Vector2.lexLe p.1 p.2 :=
  fun _ => by unfold Vector2.lexLe; infer_instance

instance Vector2.decLexLe (a b : Vector2) : Decidable (Vector2.lexLe a b) := by
  unfold Vector2.lexLe; infer_instance

/-- Rust `Ord::min` on the derived lexicographic order (the smaller of the
two operands, the left one on ties). -/
def Vector2.min (a b : Vector2) : Vector2 :=
  if Vector2.lexLe a b then a else b

/-- `iter().min().unwrap_or_default()` over a list of positions: the
lexicographic minimum, or the zero vector for an empty list. -/
def listMin : List Vector2 → Vector2
  | [] => ⟨0, 0⟩
  | p :: ps => ps.foldl Vector2.min p

/-- Modelled from the spec: `PortRef = (block_id, port_index)`, an endpoint
of a `Connection`. -/
structure PortRef where
  block_id : Nat
  port : Nat
deriving DecidableEq

/-- Modelled from the spec: a `Segment` of a `Connection` terminates at a
destination `PortRef` and carries an optional routing waypoint (the code
offsets `segment.position()` when present). -/
structure Segment where
  dest : PortRef
  position : Option Vector2
deriving DecidableEq

/-- Modelled from the spec: `Connection { id, origin: PortRef, branches }`,
a directed signal path from one output port to one or more destination
input ports. -/
structure Connection where
  id : Nat
  origin : PortRef
  branches : List Segment
deriving DecidableEq

/-- Modelled from the spec: `Block { id, module_ref, position, highlighted,
unique, inputs, outputs }`; each port slot optionally references a
`Connection` identifier. -/
structure Block where
  id : Nat
  module_id : String
  position : Vector2
  highlighted : Bool
  unique : Bool
  inputs : List (Option Nat)
  outputs : List (Option Nat)
deriving DecidableEq

/-- All block identifiers a connection's endpoint data references: the
origin block plus every branch destination block. -/
def Connection.endpoints (c : Connection) : List Nat :=
  c.origin.block_id :: c.branches.map (fun s => s.dest.block_id)

/-- Modelled from the spec (section 4.4, paste step 2): `refactor_id`
rewrites every endpoint reference of the connection that pointed at the
old block id to point at the new one. -/
def Connection.refactor_id (c : Connection) (old_id new_id : Nat) : Connection :=
  { c with
    origin :=
      if c.origin.block_id = old_id then { c.origin with block_id := new_id }
      else c.origin,
    branches := c.branches.map fun s =>
      if s.dest.block_id = old_id then { s with dest := { s.dest with block_id := new_id } }
      else s }

/-- Offsets a segment's routing waypoint when it has one, mirroring
`if let Some(position) = segment.position() { segment.set_position(*position + offset) }`. -/
def Segment.offsetPos (off : Vector2) (s : Segment) : Segment :=
  { s with position := s.position.map (fun p => p + off) }

/-- Modelled from the spec: `Block::connections_mut` iterates the non-null
port slots of the block (inputs and outputs); the paste code rewrites each
through a connection-id renaming, leaving null slots untouched. -/
def Block.mapConnections (b : Block) (f : Nat → Nat) : Block :=
  { b with
    inputs := b.inputs.map (Option.map f),
    outputs := b.outputs.map (Option.map f) }

/-- All port slots of a block, inputs then outputs. -/
def Block.slots (b : Block) : List (Option Nat) :=
  b.inputs ++ b.outputs

/-- The first loop of `prepare_pasting` (clipboard.rs:139-149): for each
copied block in order, allocate a fresh identifier, offset its position,
set its highlight flag, and rewrite every copied connection's endpoint
references from the old block id to the fresh one.  The allocator counter
is threaded explicitly. -/
def pasteBlocks (off : Vector2) :
    List Block → List Connection → Nat → List Block × List Connection × Nat
  | [], conns, ctr => ([], conns, ctr)
  | b :: bs, conns, ctr =>
    let new_id := ctr
    let old_id := b.id
    let b2 : Block :=
      { b with id := new_id, position := b.position + off, highlighted := true }
    let conns2 := conns.map (fun c => c.refactor_id old_id new_id)
    let r := pasteBlocks off bs conns2 (ctr + 1)
    (b2 :: r.1, r.2.1, r.2.2)

/-- The second loop of `prepare_pasting` (clipboard.rs:151-171): for each
copied connection in order, allocate a fresh identifier, offset every
routing waypoint, and rewrite every copied block's port slot that
referenced the old connection id to the fresh one. -/
def pasteConns (off : Vector2) :
    List Connection → List Block → Nat → List Connection × List Block × Nat
  | [], bs, ctr => ([], bs, ctr)
  | c :: cs, bs, ctr =>
    let old_id := c.id
    let new_id := ctr
    let c2 : Connection :=
      { c with id := new_id, branches := c.branches.map (Segment.offsetPos off) }
    let bs2 := bs.map (fun b =>
      b.mapConnections (fun i => if i = old_id then new_id else i))
    let r := pasteConns off cs bs2 (ctr + 1)
    (c2 :: r.1, r.2.1, r.2.2)

/-- `prepare_pasting` for `(Vec<Block>, Vec<Connection>)`
(clipboard.rs:129-175): compute the offset from the minimum block position
to the target position, then run the block-id remapping pass followed by
the connection-id remapping pass. -/
def prepare_pasting (blocks : List Block) (connections : List Connection)
    (position : Vector2) (ctr : Nat) : List Block × List Connection × Nat :=
  let min := listMin (blocks.map Block.position)
  let offset := position - min
  let rb := pasteBlocks offset blocks connections ctr
  let rc := pasteConns offset rb.2.1 rb.1 rb.2.2
  (rc.2.1, rc.1, rc.2.2)

/-- Modelled from the spec: a selectable entity inside a plot (a block or
a connection); `Selectable::block_id` extracts the block identifier when
the selectable is a block. -/
inductive Selectable where
  | Block (id : Nat)
  | Connection (id : Nat)
deriving DecidableEq

/-- `Selectable::block_id() -> Option<BlockID>`. -/
def Selectable.block_id : Selectable → Option Nat
  | .Block i => some i
  | .Connection _ => none

/-- Modelled from the spec: `Selection` is a variant over none, a single
selectable (with an optional port), or a set of selectables. -/
inductive Selection where
  | NoSelection
  | Single (s : Selectable) (port : Option Nat)
  | Many (ss : List Selectable)
deriving DecidableEq

/-- Modelled from the spec: `Plot { blocks, connections, selection }`, the
graph container.  The identifier-keyed maps are modelled as association
lists. -/
structure Plot where
  blocks : List (Nat × Block)
  connections : List (Nat × Connection)
  selection : Selection
deriving DecidableEq

/-- `Plot::get_block`: lookup of a block by identifier. -/
def Plot.get_block (p : Plot) (id : Nat) : Option Block :=
  (p.blocks.find? (fun ib => ib.1 = id)).map Prod.snd

/-- `Plot::get_connection`: lookup of a connection by identifier. -/
def Plot.get_connection (p : Plot) (id : Nat) : Option Connection :=
  (p.connections.find? (fun ic => ic.1 = id)).map Prod.snd

/-- Modelled from the spec: `Plot::unhighlight` clears the transient
highlight flag on all entities of the plot. -/
def Plot.unhighlight (p : Plot) : Plot :=
  { p with blocks := p.blocks.map (fun ib => (ib.1, { ib.2 with highlighted := false })) }

/-- `Plot::set_selection`. -/
def Plot.set_selection (p : Plot) (s : Selection) : Plot :=
  { p with selection := s }

/-- Modelled from the spec: `Plot::new` creates an empty plot. -/
def Plot.new : Plot :=
  { blocks := [], connections := [], selection := .NoSelection }

/-- Modelled from the spec: `Plot::update_all_blocks` recomputes
port-count/layout derived state (rendering geometry, outside the persisted
data model of spec sections 3 and 6) after module definitions change, and
is idempotent; on the persisted data modelled here it is the identity. -/
def Plot.update_all_blocks (p : Plot) : Plot := p

/-- Modelled from the spec: `Module { name, is_primitive, plot, io_blocks,
builtin }` plus the port counts `get_num_inputs`/`get_num_outputs` used
when generating a composite module's IO boundary blocks. -/
structure Module where
  name : String
  builtin : Bool
  plot : Option Plot
  io_blocks : Option (Nat × Nat)
  num_inputs : Nat
  num_outputs : Nat
deriving DecidableEq

/-- `Module::has_io_blocks`. -/
def Module.has_io_blocks (m : Module) : Bool :=
  m.io_blocks.isSome

/-- `Clipboard` (clipboard.rs:7-12): empty, a block/connection payload, or
a whole-module payload. -/
inductive Clipboard where
  | Empty
  | Blocks (blocks : List Block) (connections : List Connection)
  | Module (m : Module)
deriving DecidableEq

/-- `Action` (application/action.rs, modelled from the spec as far as the
clipboard needs it): paste is recorded as a single command holding the
freshly-identified entities it introduces.  The plot handle
(`PlotProvider`) is kept implicit: the plot is passed explicitly to
`paste_to`. -/
inductive Action where
  | PasteBlocks (blocks : List Block) (connections : List Connection)
deriving DecidableEq

/-- `Clipboard::paste_to` (clipboard.rs:29-50).  The source panics when the
clipboard is not the `Blocks` variant; the panic is modelled as `none`.
On a `Blocks` payload it remaps the payload with `prepare_pasting`,
unhighlights the target plot, selects the pasted blocks, and returns
`Ok(Action::PasteBlocks ...)`.  The allocator counter is threaded
explicitly and returned. -/
def Clipboard.paste_to :
    Clipboard → Plot → Vector2 → Nat → Option (Except String Action × Plot × Nat)
  | .Blocks blocks connections, plot, position, ctr =>
    let r := prepare_pasting blocks connections position ctr
    let plot2 := (plot.unhighlight).set_selection
      (.Many (r.1.map (fun block => Selectable.Block block.id)))
    some (.ok (.PasteBlocks r.1 r.2.1), plot2, r.2.2)
  | .Empty, _, _, _ => none
  | .Module _, _, _, _ => none

/-- Modelled from the spec: `Connection::remove_unselected_branches` prunes
the branches to those landing on selected blocks and reports whether the
pruning removed all branches (in which case the caller clears the port and
drops the connection). -/
def Connection.remove_unselected_branches (c : Connection) (ids : List Nat) :
    Connection × Bool :=
  let branches := c.branches.filter (fun s => ids.contains s.dest.block_id)
  ({ c with branches := branches }, branches.isEmpty)

/-- One output slot of a block under the many-selection copy
(clipboard.rs:93-102): a slot whose connection resolves is pruned; the slot
is cleared when all branches leave the selection, otherwise the pruned
connection is pushed onto the copied-connection list. -/
def copyOutputSlot (plot : Plot) (ids : List Nat) :
    Option Nat → Option Nat × List Connection
  | none => (none, [])
  | some cid =>
    match plot.get_connection cid with
    | none => (some cid, [])
    | some conn =>
      let r := conn.remove_unselected_branches ids
      if r.2 then (none, []) else (some cid, [r.1])

/-- One input slot of a block under the many-selection copy
(clipboard.rs:104-110): the slot is cleared unless its connection's origin
block is also selected. -/
def copyInputSlot (plot : Plot) (ids : List Nat) :
    Option Nat → Option Nat
  | none => none
  | some cid =>
    match plot.get_connection cid with
    | none => some cid
    | some conn => if ids.contains conn.origin.block_id then some cid else none

/-- `prepare_copying` for `(Vec<Block>, Vec<Connection>)`
(clipboard.rs:85-115): for each selected block in order, prune/clear its
output slots (pushing surviving pruned connections) and clear the input
slots whose origin is not selected. -/
def prepare_copying :
    List Block → List Connection → Plot → List Nat → List Block × List Connection
  | [], conns, _, _ => ([], conns)
  | b :: bs, conns, plot, ids =>
    let outs := b.outputs.map (copyOutputSlot plot ids)
    let b2 : Block :=
      { b with
        outputs := outs.map Prod.fst,
        inputs := b.inputs.map (copyInputSlot plot ids) }
    let conns2 := conns ++ (outs.map Prod.snd).flatten
    let r := prepare_copying bs conns2 plot ids
    (b2 :: r.1, r.2)

/-- `prepare_copying` for a single `Block` (clipboard.rs:117-123): every
port slot is cleared — a copied block starts disconnected. -/
def Block.prepare_copying_single (b : Block) : Block :=
  { b with
    inputs := b.inputs.map (fun _ => none),
    outputs := b.outputs.map (fun _ => none) }

/-- The `selection` local of `From<&Plot> for Clipboard`
(clipboard.rs:66-69): the selected identifiers that resolve to a
non-`unique` block of the plot, in selection order. -/
def eligible_blocks (plot : Plot) (sels : List Selectable) : List Block :=
  (sels.filterMap Selectable.block_id).filterMap
    (fun id => (plot.get_block id).bind
      (fun block => if !block.unique then some block else none))

/-- `From<&Plot> for Clipboard` (clipboard.rs:53-79): capture of the plot's
current selection into a clipboard payload. -/
def Clipboard.from_plot (plot : Plot) : Clipboard :=
  match plot.selection with
  | .Single (.Block block_id) _ =>
    match plot.get_block block_id with
    | some block =>
      if !block.unique then .Blocks [block.prepare_copying_single] []
      else .Empty
    | none => .Empty
  | .Many sels =>
    let selection := eligible_blocks plot sels
    let block_ids := selection.map Block.id
    let r := prepare_copying selection [] plot block_ids
    .Blocks r.1 r.2
  | _ => .Empty

/-- `Project { modules, main_plot, tps }` (project.rs:19-24); the
name-keyed `HashMap` of modules is modelled as an association list. -/
structure Project where
  modules : List (String × Module)
  main_plot : Plot
  tps : Int
deriving DecidableEq

/-- `HashMap::get` on the modelled module table. -/
def lookupModule (l : List (String × Module)) (n : String) : Option Module :=
  (l.find? (fun nm => nm.1 = n)).map Prod.snd

/-- `HashMap::insert` on the modelled module table: replace the entry with
the module's name as key, or append a new entry. -/
def insertModule : List (String × Module) → Module → List (String × Module)
  | [], m => [(m.name, m)]
  | (n, m0) :: rest, m =>
    if n = m.name then (m.name, m) :: rest
    else (n, m0) :: insertModule rest m

/-- Modelled from the spec: the builtin module registry
(`simulator::builtin::BUILTINS`) — the fixed primitive modules
(AND/OR/NOT/XOR/INPUT/OUTPUT), flagged `builtin` and without an internal
plot. -/
def BUILTINS : List Module :=
  [ { name := "AND", builtin := true, plot := none, io_blocks := none,
      num_inputs := 2, num_outputs := 1 },
    { name := "OR", builtin := true, plot := none, io_blocks := none,
      num_inputs := 2, num_outputs := 1 },
    { name := "NOT", builtin := true, plot := none, io_blocks := none,
      num_inputs := 1, num_outputs := 1 },
    { name := "XOR", builtin := true, plot := none, io_blocks := none,
      num_inputs := 2, num_outputs := 1 },
    { name := "INPUT", builtin := true, plot := none, io_blocks := none,
      num_inputs := 0, num_outputs := 1 },
    { name := "OUTPUT", builtin := true, plot := none, io_blocks := none,
      num_inputs := 1, num_outputs := 0 } ]

/-- `impl Serialize for Project` (project.rs:37-53): the serialized
document holds the module table with every builtin module filtered out,
the main plot, and the tps value.  The serde/JSON layer round-trips the
document field-for-field (spec section 6), so the document is modelled by
the same structure. -/
def Project.serialize_doc (p : Project) : Project :=
  { modules := p.modules.filter (fun nm => !nm.2.builtin),
    main_plot := p.main_plot,
    tps := p.tps }

/-- Modelled from the spec: `Block::new_sized` creates a block with a
fresh identifier, the given module reference, position, uniqueness flag
and port-slot counts (all slots empty).  The allocator counter is threaded
explicitly. -/
def Block.new_sized (m : Module) (pos : Vector2) (uniq : Bool)
    (ni no : Nat) (ctr : Nat) : Block × Nat :=
  ({ id := ctr, module_id := m.name, position := pos, highlighted := false,
     unique := uniq,
     inputs := List.replicate ni none,
     outputs := List.replicate no none }, ctr + 1)

/-- `Plot::add_block` (modelled from the spec: inserts the block keyed by
its identifier). -/
def Plot.add_block (p : Plot) (b : Block) : Plot :=
  { p with blocks := p.blocks ++ [(b.id, b)] }

/-- `Project::add_module` (project.rs:142-176): a composite module without
designated IO blocks first gets freshly generated INPUT/OUTPUT boundary
blocks added to its plot; then the module is inserted keyed by its name.
The source `unwrap`s the lookups of the builtin INPUT/OUTPUT modules; the
panic is modelled as `none`. -/
def Project.add_module (p : Project) (m : Module) (ctr : Nat) :
    Option (Project × Nat) :=
  if m.plot.isSome && !m.has_io_blocks then
    match lookupModule p.modules "INPUT", lookupModule p.modules "OUTPUT" with
    | some input_module, some output_module =>
      let ri := Block.new_sized input_module ⟨50, 50⟩ true m.num_inputs m.num_inputs ctr
      let ro := Block.new_sized output_module ⟨400, 50⟩ true m.num_outputs m.num_outputs ri.2
      let m2 : Module :=
        { m with
          io_blocks := some (ri.1.id, ro.1.id),
          plot := m.plot.map (fun plot => (plot.add_block ri.1).add_block ro.1) }
      some ({ p with modules := insertModule p.modules m2 }, ro.2)
    | _, _ => none
  else some ({ p with modules := insertModule p.modules m }, ctr)

/-- The plot-normalization pass run at the end of `Project::load_from`
(project.rs:93-95): `update_all_blocks` on every module plot and on the
main plot. -/
def Project.update_plots (p : Project) : Project :=
  { p with
    modules := p.modules.map
      (fun nm => (nm.1, { nm.2 with plot := nm.2.plot.map Plot.update_all_blocks })),
    main_plot := p.main_plot.update_all_blocks }

/-- `Project::load_from` (project.rs:79-97) on an already-parsed document:
re-insert every builtin module via `add_module`, then run
`update_all_blocks` on every plot.  File I/O and JSON parsing are outside
the model; a parse failure aborts before this logic runs. -/
def Project.load_from (doc : Project) (ctr : Nat) : Option (Project × Nat) :=
  (BUILTINS.foldlM (fun s m => Project.add_module s.1 m s.2) (doc, ctr)).map
    (fun s => (s.1.update_plots, s.2))

/-- `Project::collect_dependencies` (project.rs:217-230): walk the named
module's plot; for every block whose module exists, is not builtin and has
not been collected yet, insert it into the accumulator and recurse into
it.  The source recursion terminates because the accumulator only grows
and is bounded by the module table; the model makes that explicit with a
fuel argument (the theorems hold for every sufficiently large fuel). -/
def collect_dependencies (p : Project) :
    Nat → String → List (String × Module) → List (String × Module)
  | 0, _, acc => acc
  | fuel + 1, mod_name, acc =>
    match (lookupModule p.modules mod_name).bind Module.plot with
    | none => acc
    | some plot =>
      plot.blocks.foldl
        (fun acc ib =>
          match lookupModule p.modules ib.2.module_id with
          | some m =>
            if !m.builtin && (lookupModule acc m.name).isNone then
              collect_dependencies p fuel m.name (acc ++ [(m.name, m)])
            else acc
          | none => acc)
        acc

/-- `Simulator` (modelled from the spec: a background scheduler; the only
state the lifecycle claims observe is how many ticks it has run). -/
structure Simulator where
  ticks : Nat
deriving DecidableEq

/-- `ApplicationTemplate` (template.rs:18-22): the application holds an
optional running simulator. -/
structure ApplicationTemplate where
  simulator : Option Simulator
deriving DecidableEq

/-- `ApplicationTemplate::stop_simulation` (template.rs:31-35):
`self.simulator.replace(None)` always leaves no simulator; when one was
running, `join` blocks until its execution context has finished.
Modelled from the spec for `Simulator::join`: the returned boolean records
whether the stop joined (blocked on) a running simulator. -/
def ApplicationTemplate.stop_simulation (a : ApplicationTemplate) :
    ApplicationTemplate × Bool :=
  match a.simulator with
  | some _ => ({ simulator := none }, true)
  | none => ({ simulator := none }, false)

/-- Modelled from the spec: one simulation tick advances the running
simulator's tick count; with no simulator running, no tick occurs. -/
def ApplicationTemplate.tick (a : ApplicationTemplate) : ApplicationTemplate :=
  match a.simulator with
  | some s => { simulator := some { ticks := s.ticks + 1 } }
  | none => a

/-! ## Basic characterization lemmas -/

@[simp] theorem Connection.refactor_id_id (c : Connection) (o n : Nat) :
    (c.refactor_id o n).id = c.id := rfl

theorem Connection.refactor_id_endpoints (c : Connection) (o n : Nat) :
    (c.refactor_id o n).endpoints =
      c.endpoints.map (fun e => if e = o then n else e) := by
  simp only [refactor_id, endpoints, List.map_cons, List.map_map]
  refine congrArg₂ List.cons ?_ ?_
  · split <;> simp_all
  · apply List.map_congr_left
    intro s _
    by_cases h : s.dest.block_id = o <;> simp [h]

theorem Connection.refactor_id_positions (c : Connection) (o n : Nat) :
    (c.refactor_id o n).branches.map Segment.position =
      c.branches.map Segment.position := by
  simp only [refactor_id, List.map_map]
  apply List.map_congr_left
  intro s _
  by_cases h : s.dest.block_id = o <;> simp [h]

@[simp] theorem Block.mapConnections_id (b : Block) (f : Nat → Nat) :
    (b.mapConnections f).id = b.id := rfl

@[simp] theorem Block.mapConnections_position (b : Block) (f : Nat → Nat) :
    (b.mapConnections f).position = b.position := rfl

theorem Block.mapConnections_slots (b : Block) (f : Nat → Nat) :
    (b.mapConnections f).slots = b.slots.map (Option.map f) := by
  simp [mapConnections, slots]

@[simp] theorem Segment.offsetPos_position (off : Vector2) (s : Segment) :
    (Segment.offsetPos off s).position = s.position.map (fun p => p + off) := rfl

/-! ## Structure of the block-remapping pass -/

theorem pasteBlocks_ctr (off : Vector2) :
    ∀ (bs : List Block) (conns : List Connection) (ctr : Nat),
      (pasteBlocks off bs conns ctr).2.2 = ctr + bs.length
  | [], _, _ => rfl
  | _ :: bs, conns, ctr => by
    simp only [pasteBlocks, List.length_cons]
    rw [pasteBlocks_ctr off bs]
    omega

theorem pasteBlocks_ids (off : Vector2) :
    ∀ (bs : List Block) (conns : List Connection) (ctr : Nat),
      (pasteBlocks off bs conns ctr).1.map Block.id = List.range' ctr bs.length
  | [], _, _ => rfl
  | _ :: bs, conns, ctr => by
    simp only [pasteBlocks, List.map_cons, List.length_cons, List.range'_succ]
    rw [pasteBlocks_ids off bs]

theorem pasteBlocks_positions (off : Vector2) :
    ∀ (bs : List Block) (conns : List Connection) (ctr : Nat),
      (pasteBlocks off bs conns ctr).1.map Block.position =
        bs.map (fun b => b.position + off)
  | [], _, _ => rfl
  | _ :: bs, conns, ctr => by
    simp only [pasteBlocks, List.map_cons]
    rw [pasteBlocks_positions off bs]

theorem pasteBlocks_slots (off : Vector2) :
    ∀ (bs : List Block) (conns : List Connection) (ctr : Nat),
      (pasteBlocks off bs conns ctr).1.map Block.slots = bs.map Block.slots
  | [], _, _ => rfl
  | _ :: bs, conns, ctr => by
    simp only [pasteBlocks, List.map_cons]
    rw [pasteBlocks_slots off bs]
    rfl

theorem pasteBlocks_conn_ids (off : Vector2) :
    ∀ (bs : List Block) (conns : List Connection) (ctr : Nat),
      (pasteBlocks off bs conns ctr).2.1.map Connection.id = conns.map Connection.id
  | [], _, _ => rfl
  | _ :: bs, conns, ctr => by
    simp only [pasteBlocks]
    rw [pasteBlocks_conn_ids off bs]
    simp

theorem pasteBlocks_conn_positions (off : Vector2) :
    ∀ (bs : List Block) (conns : List Connection) (ctr : Nat),
      (pasteBlocks off bs conns ctr).2.1.map (fun c => c.branches.map Segment.position) =
        conns.map (fun c => c.branches.map Segment.position)
  | [], _, _ => rfl
  | b :: bs, conns, ctr => by
    simp only [pasteBlocks]
    rw [pasteBlocks_conn_positions off bs]
    simp only [List.map_map]
    apply List.map_congr_left
    intro c _
    exact Connection.refactor_id_positions c b.id ctr

theorem pasteBlocks_endpoints (off : Vector2) :
    ∀ (bs : List Block) (conns : List Connection) (ctr lo : Nat),
      lo ≤ ctr →
      (∀ b ∈ bs, b.id < lo) →
      (∀ c ∈ conns, ∀ e ∈ c.endpoints, e ∈ bs.map Block.id ∨ (lo ≤ e ∧ e < ctr)) →
      ∀ c ∈ (pasteBlocks off bs conns ctr).2.1, ∀ e ∈ c.endpoints,
        lo ≤ e ∧ e < (pasteBlocks off bs conns ctr).2.2
  | [], conns, ctr, lo, _, _, he => by
    intro c hc e hee
    rcases he c hc e hee with h | h
    · simp at h
    · exact h
  | b :: bs, conns, ctr, lo, hlo, hb, he => by
    simp only [pasteBlocks]
    refine pasteBlocks_endpoints off bs _ (ctr + 1) lo (by omega)
      (fun b' hb' => hb b' (List.mem_cons_of_mem _ hb')) ?_
    intro c hc e hee
    rcases List.mem_map.mp hc with ⟨c0, hc0, rfl⟩
    rw [Connection.refactor_id_endpoints] at hee
    rcases List.mem_map.mp hee with ⟨e0, he0, rfl⟩
    by_cases h : e0 = b.id
    · rw [if_pos h]
      exact Or.inr ⟨hlo, Nat.lt_succ_self ctr⟩
    · rw [if_neg h]
      rcases he c0 hc0 e0 he0 with hmem | hint
      · rcases (by simpa using hmem : e0 = b.id ∨ ∃ a ∈ bs, a.id = e0) with h' | h'
        · exact absurd h' h
        · exact Or.inl (List.mem_map.mpr (by simpa using h'))
      · exact Or.inr ⟨hint.1, Nat.lt_succ_of_lt hint.2⟩

/-! ## Structure of the connection-remapping pass -/

theorem pasteConns_ctr (off : Vector2) :
    ∀ (cs : List Connection) (bs : List Block) (ctr : Nat),
      (pasteConns off cs bs ctr).2.2 = ctr + cs.length
  | [], _, _ => rfl
  | _ :: cs, bs, ctr => by
    simp only [pasteConns, List.length_cons]
    rw [pasteConns_ctr off cs]
    omega

theorem pasteConns_ids (off : Vector2) :
    ∀ (cs : List Connection) (bs : List Block) (ctr : Nat),
      (pasteConns off cs bs ctr).1.map Connection.id = List.range' ctr cs.length
  | [], _, _ => rfl
  | _ :: cs, bs, ctr => by
    simp only [pasteConns, List.map_cons, List.length_cons, List.range'_succ]
    rw [pasteConns_ids off cs]

theorem pasteConns_block_ids (off : Vector2) :
    ∀ (cs : List Connection) (bs : List Block) (ctr : Nat),
      (pasteConns off cs bs ctr).2.1.map Block.id = bs.map Block.id
  | [], _, _ => rfl
  | _ :: cs, bs, ctr => by
    simp only [pasteConns]
    rw [pasteConns_block_ids off cs]
    simp

theorem pasteConns_block_positions (off : Vector2) :
    ∀ (cs : List Connection) (bs : List Block) (ctr : Nat),
      (pasteConns off cs bs ctr).2.1.map Block.position = bs.map Block.position
  | [], _, _ => rfl
  | _ :: cs, bs, ctr => by
    simp only [pasteConns]
    rw [pasteConns_block_positions off cs]
    simp

theorem pasteConns_endpoints (off : Vector2) :
    ∀ (cs : List Connection) (bs : List Block) (ctr : Nat),
      (pasteConns off cs bs ctr).1.map Connection.endpoints =
        cs.map Connection.endpoints
  | [], _, _ => rfl
  | c :: cs, bs, ctr => by
    simp only [pasteConns, List.map_cons]
    rw [pasteConns_endpoints off cs]
    refine congrArg₂ List.cons ?_ rfl
    simp only [Connection.endpoints, List.map_map]
    rfl

theorem pasteConns_waypoints (off : Vector2) :
    ∀ (cs : List Connection) (bs : List Block) (ctr : Nat),
      (pasteConns off cs bs ctr).1.map (fun c => c.branches.map Segment.position) =
        cs.map (fun c => c.branches.map (fun s => s.position.map (fun p => p + off)))
  | [], _, _ => rfl
  | _ :: cs, bs, ctr => by
    simp only [pasteConns, List.map_cons]
    rw [pasteConns_waypoints off cs]
    simp

theorem pasteConns_slots (off : Vector2) :
    ∀ (cs : List Connection) (bs : List Block) (ctr lo : Nat),
      lo ≤ ctr →
      (∀ c ∈ cs, c.id < lo) →
      (∀ b ∈ bs, ∀ oi ∈ b.slots, ∀ i, oi = some i →
          i ∈ cs.map Connection.id ∨ (lo ≤ i ∧ i < ctr)) →
      ∀ b ∈ (pasteConns off cs bs ctr).2.1, ∀ oi ∈ b.slots, ∀ i, oi = some i →
        lo ≤ i ∧ i < (pasteConns off cs bs ctr).2.2
  | [], cs, ctr, lo, _, _, hs => by
    intro b hb oi hoi i hi
    rcases hs b hb oi hoi i hi with h | h
    · simp at h
    · exact h
  | c :: cs, bs, ctr, lo, hlo, hc, hs => by
    simp only [pasteConns]
    refine pasteConns_slots off cs _ (ctr + 1) lo (by omega)
      (fun c' hc' => hc c' (List.mem_cons_of_mem _ hc')) ?_
    intro b hb oi hoi i hi
    rcases List.mem_map.mp hb with ⟨b0, hb0, rfl⟩
    rw [Block.mapConnections_slots] at hoi
    rcases List.mem_map.mp hoi with ⟨oi0, hoi0, rfl⟩
    rcases oi0 with _ | i0
    · simp at hi
    · simp only [Option.map_some'] at hi
      injection hi with hi
      by_cases h : i0 = c.id
      · rw [← hi, if_pos h]
        exact Or.inr ⟨hlo, Nat.lt_succ_self ctr⟩
      · rw [← hi, if_neg h]
        rcases hs b0 hb0 (some i0) hoi0 i0 rfl with hmem | hint
        · rcases (by simpa using hmem : i0 = c.id ∨ ∃ a ∈ cs, a.id = i0) with h' | h'
          · exact absurd h' h
          · exact Or.inl (List.mem_map.mpr (by simpa using h'))
        · exact Or.inr ⟨hint.1, Nat.lt_succ_of_lt hint.2⟩

/-! ## The lexicographic minimum used for the paste offset -/

theorem Vector2.lexLe_refl (a : Vector2) : a.lexLe a :=
  Or.inr ⟨rfl, le_refl _⟩

theorem Vector2.lexLe_trans {a b c : Vector2} (h : a.lexLe b) (g : b.lexLe c) :
    a.lexLe c := by
  unfold lexLe at *
  omega

theorem Vector2.lexLe_of_not_lexLe {a b : Vector2} (h : ¬ a.lexLe b) : b.lexLe a := by
  unfold lexLe at *
  omega

theorem Vector2.min_le_left (a b : Vector2) : (a.min b).lexLe a := by
  unfold min
  split
  · exact lexLe_refl a
  · exact lexLe_of_not_lexLe (by assumption)

theorem Vector2.min_le_right (a b : Vector2) : (a.min b).lexLe b := by
  unfold min
  split
  · assumption
  · exact lexLe_refl b

theorem Vector2.min_mem (a b : Vector2) : a.min b = a ∨ a.min b = b := by
  unfold min
  split
  · exact Or.inl rfl
  · exact Or.inr rfl

theorem foldlMin_mem : ∀ (ps : List Vector2) (a : Vector2),
    ps.foldl Vector2.min a ∈ a :: ps
  | [], a => List.mem_singleton.mpr rfl
  | p :: ps, a => by
    simp only [List.foldl_cons]
    rcases List.mem_cons.mp (foldlMin_mem ps (a.min p)) with h | h
    · rw [h]
      rcases Vector2.min_mem a p with h' | h' <;> rw [h'] <;> simp
    · simp [h]

theorem foldlMin_le : ∀ (ps : List Vector2) (a : Vector2),
    (ps.foldl Vector2.min a).lexLe a ∧
      ∀ p ∈ ps, (ps.foldl Vector2.min a).lexLe p
  | [], a => ⟨Vector2.lexLe_refl a, by simp⟩
  | p :: ps, a => by
    simp only [List.foldl_cons]
    obtain ⟨h1, h2⟩ := foldlMin_le ps (a.min p)
    refine ⟨Vector2.lexLe_trans h1 (Vector2.min_le_left a p), ?_⟩
    intro q hq
    rcases List.mem_cons.mp hq with rfl | hq'
    · exact Vector2.lexLe_trans h1 (Vector2.min_le_right a q)
    · exact h2 q hq'

theorem listMin_mem {l : List Vector2} (h : l ≠ []) : listMin l ∈ l := by
  cases l with
  | nil => exact absurd rfl h
  | cons p ps => exact foldlMin_mem ps p

theorem listMin_le {l : List Vector2} (h : l ≠ []) :
    ∀ p ∈ l, (listMin l).lexLe p := by
  cases l with
  | nil => exact absurd rfl h
  | cons p ps =>
    intro q hq
    rcases List.mem_cons.mp hq with rfl | hq'
    · exact (foldlMin_le ps q).1
    · exact (foldlMin_le ps p).2 q hq'

/-! ## Length bookkeeping for the two paste passes -/

theorem pasteBlocks_blocks_length (off : Vector2) (bs : List Block)
    (conns : List Connection) (ctr : Nat) :
    (pasteBlocks off bs conns ctr).1.length = bs.length := by
  have h := congrArg List.length (pasteBlocks_ids off bs conns ctr)
  simpa using h

theorem pasteBlocks_conns_length (off : Vector2) (bs : List Block)
    (conns : List Connection) (ctr : Nat) :
    (pasteBlocks off bs conns ctr).2.1.length = conns.length := by
  have h := congrArg List.length (pasteBlocks_conn_ids off bs conns ctr)
  simpa using h

theorem pasteConns_conns_length (off : Vector2) (cs : List Connection)
    (bs : List Block) (ctr : Nat) :
    (pasteConns off cs bs ctr).1.length = cs.length := by
  have h := congrArg List.length (pasteConns_ids off cs bs ctr)
  simpa using h

/-! ## Identifier layout of `prepare_pasting` -/

theorem prepare_pasting_block_ids (blocks : List Block) (conns : List Connection)
    (pos : Vector2) (ctr : Nat) :
    (prepare_pasting blocks conns pos ctr).1.map Block.id =
      List.range' ctr blocks.length := by
  unfold prepare_pasting
  rw [pasteConns_block_ids, pasteBlocks_ids]

theorem prepare_pasting_conn_ids (blocks : List Block) (conns : List Connection)
    (pos : Vector2) (ctr : Nat) :
    (prepare_pasting blocks conns pos ctr).2.1.map Connection.id =
      List.range' (ctr + blocks.length) conns.length := by
  unfold prepare_pasting
  rw [pasteConns_ids, pasteBlocks_ctr, pasteBlocks_conns_length]

theorem prepare_pasting_ctr (blocks : List Block) (conns : List Connection)
    (pos : Vector2) (ctr : Nat) :
    (prepare_pasting blocks conns pos ctr).2.2 =
      ctr + blocks.length + conns.length := by
  unfold prepare_pasting
  rw [pasteConns_ctr, pasteBlocks_ctr, pasteBlocks_conns_length]

theorem prepare_pasting_endpoints (blocks : List Block) (conns : List Connection)
    (pos : Vector2) (ctr : Nat)
    (hbid : ∀ b ∈ blocks, b.id < ctr)
    (hend : ∀ c ∈ conns, ∀ e ∈ c.endpoints, e ∈ blocks.map Block.id) :
    ∀ c ∈ (prepare_pasting blocks conns pos ctr).2.1, ∀ e ∈ c.endpoints,
      ctr ≤ e ∧ e < ctr + blocks.length := by
  unfold prepare_pasting
  intro c hc e he
  have hA := pasteBlocks_endpoints (pos - listMin (blocks.map Block.position))
    blocks conns ctr ctr (le_refl ctr) hbid
    (fun c hc e he => Or.inl (hend c hc e he))
  have hE := pasteConns_endpoints (pos - listMin (blocks.map Block.position))
    (pasteBlocks (pos - listMin (blocks.map Block.position)) blocks conns ctr).2.1
    (pasteBlocks (pos - listMin (blocks.map Block.position)) blocks conns ctr).1
    (pasteBlocks (pos - listMin (blocks.map Block.position)) blocks conns ctr).2.2
  have hmem : c.endpoints ∈ _ := List.mem_map_of_mem Connection.endpoints hc
  rw [hE] at hmem
  rcases List.mem_map.mp hmem with ⟨c0, hc0, heq⟩
  have := hA c0 hc0 e (heq ▸ he)
  rwa [pasteBlocks_ctr] at this

theorem prepare_pasting_slots (blocks : List Block) (conns : List Connection)
    (pos : Vector2) (ctr : Nat)
    (hcid : ∀ c ∈ conns, c.id < ctr)
    (hslot : ∀ b ∈ blocks, ∀ oi ∈ b.slots, ∀ i, oi = some i →
        i ∈ conns.map Connection.id) :
    ∀ b ∈ (prepare_pasting blocks conns pos ctr).1, ∀ oi ∈ b.slots, ∀ i,
      oi = some i →
      ctr + blocks.length ≤ i ∧ i < ctr + blocks.length + conns.length := by
  unfold prepare_pasting
  intro b hb oi hoi i hi
  have hS := pasteBlocks_slots (pos - listMin (blocks.map Block.position))
    blocks conns ctr
  have hI := pasteBlocks_conn_ids (pos - listMin (blocks.map Block.position))
    blocks conns ctr
  have hs0 : ∀ b' ∈ (pasteBlocks (pos - listMin (blocks.map Block.position))
      blocks conns ctr).1, ∀ oi' ∈ b'.slots, ∀ i', oi' = some i' →
      i' ∈ (pasteBlocks (pos - listMin (blocks.map Block.position))
        blocks conns ctr).2.1.map Connection.id ∨
      ((pasteBlocks (pos - listMin (blocks.map Block.position))
        blocks conns ctr).2.2 ≤ i' ∧ i' < (pasteBlocks
          (pos - listMin (blocks.map Block.position)) blocks conns ctr).2.2) := by
    intro b' hb' oi' hoi' i' hi'
    have hmem : b'.slots ∈ _ := List.mem_map_of_mem Block.slots hb'
    rw [hS] at hmem
    rcases List.mem_map.mp hmem with ⟨b0, hb0, heq⟩
    rw [hI]
    exact Or.inl (hslot b0 hb0 oi' (heq ▸ hoi') i' hi')
  have hc0 : ∀ c ∈ (pasteBlocks (pos - listMin (blocks.map Block.position))
      blocks conns ctr).2.1, c.id < (pasteBlocks
        (pos - listMin (blocks.map Block.position)) blocks conns ctr).2.2 := by
    intro c hc
    have hmem : c.id ∈ _ := List.mem_map_of_mem Connection.id hc
    rw [hI] at hmem
    rcases List.mem_map.mp hmem with ⟨c1, hc1, heq⟩
    rw [pasteBlocks_ctr]
    have := hcid c1 hc1
    omega
  have hfin := pasteConns_slots (pos - listMin (blocks.map Block.position))
    (pasteBlocks (pos - listMin (blocks.map Block.position)) blocks conns ctr).2.1
    (pasteBlocks (pos - listMin (blocks.map Block.position)) blocks conns ctr).1
    (pasteBlocks (pos - listMin (blocks.map Block.position)) blocks conns ctr).2.2
    (pasteBlocks (pos - listMin (blocks.map Block.position)) blocks conns ctr).2.2
    (le_refl _) hc0 hs0 b hb oi hoi i hi
  rwa [pasteConns_ctr, pasteBlocks_ctr, pasteBlocks_conns_length] at hfin

/-- C1: pasting a self-contained `Clipboard::Blocks` payload leaves no
reference to any pre-paste identifier: the block-id remapping pass runs on
the connection endpoint data before the connection-id pass rewrites the
block port slots (the two passes of `prepare_pasting`, in that order), so
every connection endpoint of the result names a fresh block id of the
payload, every non-null port slot names a fresh connection id of the
payload, every reference is a freshly allocated identifier (`≥ ctr`, hence
disjoint from everything allocated before the paste), and `paste_to`
installs the pasted blocks as the plot's active selection. -/
theorem c1_paste_remap_no_stale_ids (blocks : List Block) (conns : List Connection)
    (plot : Plot) (pos : Vector2) (ctr : Nat)
    (hbid : ∀ b ∈ blocks, b.id < ctr)
    (hcid : ∀ c ∈ conns, c.id < ctr)
    (hend : ∀ c ∈ conns, ∀ e ∈ c.endpoints, e ∈ blocks.map Block.id)
    (hslot : ∀ b ∈ blocks, ∀ oi ∈ b.slots, ∀ i, oi = some i →
        i ∈ conns.map Connection.id) :
    (∀ c ∈ (prepare_pasting blocks conns pos ctr).2.1, ∀ e ∈ c.endpoints,
        e ∈ (prepare_pasting blocks conns pos ctr).1.map Block.id ∧ ctr ≤ e) ∧
    (∀ b ∈ (prepare_pasting blocks conns pos ctr).1, ∀ oi ∈ b.slots, ∀ i,
        oi = some i →
        i ∈ (prepare_pasting blocks conns pos ctr).2.1.map Connection.id ∧
          ctr ≤ i) ∧
    (∀ b ∈ (prepare_pasting blocks conns pos ctr).1, ctr ≤ b.id) ∧
    (∀ c ∈ (prepare_pasting blocks conns pos ctr).2.1, ctr ≤ c.id) ∧
    Clipboard.paste_to (.Blocks blocks conns) plot pos ctr =
      some (.ok (.PasteBlocks (prepare_pasting blocks conns pos ctr).1
          (prepare_pasting blocks conns pos ctr).2.1),
        (plot.unhighlight).set_selection
          (.Many ((prepare_pasting blocks conns pos ctr).1.map
            (fun b => Selectable.Block b.id))),
        (prepare_pasting blocks conns pos ctr).2.2) ∧
    ((plot.unhighlight).set_selection
        (.Many ((prepare_pasting blocks conns pos ctr).1.map
          (fun b => Selectable.Block b.id)))).selection =
      .Many ((prepare_pasting blocks conns pos ctr).1.map
        (fun b => Selectable.Block b.id)) := by
  refine ⟨?_, ?_, ?_, ?_, rfl, rfl⟩
  · intro c hc e he
    have h := prepare_pasting_endpoints blocks conns pos ctr hbid hend c hc e he
    rw [prepare_pasting_block_ids, List.mem_range'_1]
    exact ⟨⟨h.1, h.2⟩, h.1⟩
  · intro b hb oi hoi i hi
    have h := prepare_pasting_slots blocks conns pos ctr hcid hslot b hb oi hoi i hi
    rw [prepare_pasting_conn_ids, List.mem_range'_1]
    refine ⟨⟨h.1, by omega⟩, by omega⟩
  · intro b hb
    have hmem : b.id ∈ _ := List.mem_map_of_mem Block.id hb
    rw [prepare_pasting_block_ids, List.mem_range'_1] at hmem
    exact hmem.1
  · intro c hc
    have hmem : c.id ∈ _ := List.mem_map_of_mem Connection.id hc
    rw [prepare_pasting_conn_ids, List.mem_range'_1] at hmem
    omega

/-- C1 witness: the theorem applied to a concrete two-block,
one-connection payload, instantiated at the pasted connection and both of
its endpoints — each endpoint names a fresh block id of the payload. -/
theorem c1_witness :
    (50 ∈ (prepare_pasting
        [{ id := 1, module_id := "M", position := ⟨10, 10⟩, highlighted := false,
           unique := false, inputs := [none], outputs := [some 7] },
         { id := 2, module_id := "M", position := ⟨40, 30⟩, highlighted := false,
           unique := false, inputs := [some 7], outputs := [none] }]
        [{ id := 7, origin := ⟨1, 0⟩, branches := [⟨⟨2, 0⟩, some ⟨20, 20⟩⟩] }]
        ⟨100, 100⟩ 50).1.map Block.id ∧ 50 ≤ 50) ∧
    (51 ∈ (prepare_pasting
        [{ id := 1, module_id := "M", position := ⟨10, 10⟩, highlighted := false,
           unique := false, inputs := [none], outputs := [some 7] },
         { id := 2, module_id := "M", position := ⟨40, 30⟩, highlighted := false,
           unique := false, inputs := [some 7], outputs := [none] }]
        [{ id := 7, origin := ⟨1, 0⟩, branches := [⟨⟨2, 0⟩, some ⟨20, 20⟩⟩] }]
        ⟨100, 100⟩ 50).1.map Block.id ∧ 50 ≤ 51) :=
  ⟨(c1_paste_remap_no_stale_ids
      [{ id := 1, module_id := "M", position := ⟨10, 10⟩, highlighted := false,
         unique := false, inputs := [none], outputs := [some 7] },
       { id := 2, module_id := "M", position := ⟨40, 30⟩, highlighted := false,
         unique := false, inputs := [some 7], outputs := [none] }]
      [{ id := 7, origin := ⟨1, 0⟩, branches := [⟨⟨2, 0⟩, some ⟨20, 20⟩⟩] }]
      Plot.new ⟨100, 100⟩ 50 (by decide) (by decide) (by decide)
      (by intro b hb oi hoi i hi; fin_cases hb <;> fin_cases hoi <;> simp_all)).1
    { id := 52, origin := ⟨50, 0⟩, branches := [⟨⟨51, 0⟩, some ⟨110, 110⟩⟩] }
    (by decide) 50 (by decide),
   (c1_paste_remap_no_stale_ids
      [{ id := 1, module_id := "M", position := ⟨10, 10⟩, highlighted := false,
         unique := false, inputs := [none], outputs := [some 7] },
       { id := 2, module_id := "M", position := ⟨40, 30⟩, highlighted := false,
         unique := false, inputs := [some 7], outputs := [none] }]
      [{ id := 7, origin := ⟨1, 0⟩, branches := [⟨⟨2, 0⟩, some ⟨20, 20⟩⟩] }]
      Plot.new ⟨100, 100⟩ 50 (by decide) (by decide) (by decide)
      (by intro b hb oi hoi i hi; fin_cases hb <;> fin_cases hoi <;> simp_all)).1
    { id := 52, origin := ⟨50, 0⟩, branches := [⟨⟨51, 0⟩, some ⟨110, 110⟩⟩] }
    (by decide) 51 (by decide)⟩

/-- C2: every identifier of the entities produced by a paste is freshly
allocated: the `N + M` resulting block and connection identifiers are
pairwise distinct and all `≥ ctr`, hence disjoint from every identifier
that existed before the paste (the allocator has handed out exactly the
identifiers `< ctr`). -/
theorem c2_paste_identifier_freshness (blocks : List Block)
    (conns : List Connection) (pos : Vector2) (ctr : Nat) :
    ((prepare_pasting blocks conns pos ctr).1.map Block.id ++
      (prepare_pasting blocks conns pos ctr).2.1.map Connection.id).Nodup ∧
    ∀ i ∈ (prepare_pasting blocks conns pos ctr).1.map Block.id ++
      (prepare_pasting blocks conns pos ctr).2.1.map Connection.id, ctr ≤ i := by
  rw [prepare_pasting_block_ids, prepare_pasting_conn_ids]
  constructor
  · refine List.Nodup.append (List.nodup_range' _ _) (List.nodup_range' _ _) ?_
    intro a ha hb
    rw [List.mem_range'_1] at ha hb
    omega
  · intro i hi
    rcases List.mem_append.mp hi with h | h <;> rw [List.mem_range'_1] at h <;> omega

/-- C6: pasting a non-empty payload at target position `pos` translates
every copied block and every connection routing waypoint by the single
offset `pos − m`, where `m` is the minimum position over the copied blocks
(the lexicographic minimum that Rust's derived `Ord` yields): `m` is one of
the block positions and is `≤` all of them, every block position is shifted
by exactly `pos − m`, the block originally at `m` lands exactly at `pos`,
and every waypoint is shifted by the same offset. -/
theorem c6_paste_offset_translation (blocks : List Block)
    (conns : List Connection) (pos : Vector2) (ctr : Nat)
    (hne : blocks ≠ []) :
    listMin (blocks.map Block.position) ∈ blocks.map Block.position ∧
    (∀ p ∈ blocks.map Block.position,
      (listMin (blocks.map Block.position)).lexLe p) ∧
    (prepare_pasting blocks conns pos ctr).1.map Block.position =
      blocks.map (fun b => b.position +
        (pos - listMin (blocks.map Block.position))) ∧
    (∀ b ∈ blocks, b.position = listMin (blocks.map Block.position) →
      b.position + (pos - listMin (blocks.map Block.position)) = pos) ∧
    (prepare_pasting blocks conns pos ctr).2.1.map
        (fun c => c.branches.map Segment.position) =
      conns.map (fun c => c.branches.map (fun s =>
        s.position.map (fun p =>
          p + (pos - listMin (blocks.map Block.position))))) := by
  have hmapne : blocks.map Block.position ≠ [] := by
    intro h
    exact hne (List.map_eq_nil_iff.mp h)
  refine ⟨listMin_mem hmapne, listMin_le hmapne, ?_, ?_, ?_⟩
  · unfold prepare_pasting
    rw [pasteConns_block_positions, pasteBlocks_positions]
  · intro b _ hbm
    rw [hbm]
    rcases pos with ⟨px, py⟩
    rcases listMin (blocks.map Block.position) with ⟨mx, my⟩
    simp only [Vector2.sub_def, Vector2.add_def, Vector2.mk.injEq]
    omega
  · unfold prepare_pasting
    rw [pasteConns_waypoints]
    have hstep : ∀ (l : List Connection) (f : Vector2 → Vector2),
        l.map (fun c => c.branches.map (fun s => s.position.map f)) =
          (l.map (fun c => c.branches.map Segment.position)).map
            (List.map (Option.map f)) := by
      intro l f
      rw [List.map_map]
      apply List.map_congr_left
      intro c _
      rw [Function.comp_apply, List.map_map]
      rfl
    rw [hstep, pasteBlocks_conn_positions, ← hstep]

/-- C6 witness: the spec's own example — a two-block selection with minimum
position `(10, 10)` pasted at `(100, 100)` places the `(10, 10)` block at
exactly `(100, 100)` and shifts the other block by the same `(90, 90)`
delta. -/
theorem c6_witness :
    (prepare_pasting
      [{ id := 1, module_id := "M", position := ⟨10, 10⟩, highlighted := false,
         unique := false, inputs := [none], outputs := [some 7] },
       { id := 2, module_id := "M", position := ⟨40, 30⟩, highlighted := false,
         unique := false, inputs := [some 7], outputs := [none] }]
      [{ id := 7, origin := ⟨1, 0⟩, branches := [⟨⟨2, 0⟩, some ⟨20, 20⟩⟩] }]
      ⟨100, 100⟩ 50).1.map Block.position =
      ([{ id := 1, module_id := "M", position := ⟨10, 10⟩, highlighted := false,
          unique := false, inputs := [none], outputs := [some 7] },
        { id := 2, module_id := "M", position := ⟨40, 30⟩, highlighted := false,
          unique := false, inputs := [some 7], outputs := [none] }] :
        List Block).map
        (fun b => b.position + (⟨100, 100⟩ -
          listMin ([⟨10, 10⟩, ⟨40, 30⟩] : List Vector2))) := by
  have h := c6_paste_offset_translation
    [{ id := 1, module_id := "M", position := ⟨10, 10⟩, highlighted := false,
       unique := false, inputs := [none], outputs := [some 7] },
     { id := 2, module_id := "M", position := ⟨40, 30⟩, highlighted := false,
       unique := false, inputs := [some 7], outputs := [none] }]
    [{ id := 7, origin := ⟨1, 0⟩, branches := [⟨⟨2, 0⟩, some ⟨20, 20⟩⟩] }]
    ⟨100, 100⟩ 50 (by decide)
  exact h.2.2.1

/-- C7: `paste_to` on a clipboard that does not hold the block/connection
payload (`Empty` or `Module`) terminates abruptly (the source `panic!`,
modelled as `none`) rather than returning a recoverable error, while on a
`Blocks` payload it always returns `Ok`. -/
theorem c7_paste_to_contract (plot : Plot) (pos : Vector2) (ctr : Nat)
    (m : Module) (blocks : List Block) (conns : List Connection) :
    Clipboard.paste_to .Empty plot pos ctr = none ∧
    Clipboard.paste_to (.Module m) plot pos ctr = none ∧
    ∃ act plot2, Clipboard.paste_to (.Blocks blocks conns) plot pos ctr =
      some (.ok act, plot2, (prepare_pasting blocks conns pos ctr).2.2) :=
  ⟨rfl, rfl, _, _, rfl⟩

/-- C10: `paste_to` is total on every `Blocks` payload, including the empty
one: the minimum-position computation falls back to the zero vector on an
empty block list, and pasting an empty payload returns
`Ok(Action::PasteBlocks [] [])`, allocates no identifier, introduces no
entity, and sets the plot selection to an empty many-selection. -/
theorem c10_paste_total_on_empty_payload (blocks : List Block)
    (conns : List Connection) (plot : Plot) (pos : Vector2) (ctr : Nat) :
    (Clipboard.paste_to (.Blocks blocks conns) plot pos ctr).isSome = true ∧
    listMin ([] : List Vector2) = ⟨0, 0⟩ ∧
    Clipboard.paste_to (.Blocks [] []) plot pos ctr =
      some (.ok (.PasteBlocks [] []),
        (plot.unhighlight).set_selection (.Many []), ctr) ∧
    ((plot.unhighlight).set_selection (.Many [])).selection = .Many [] :=
  ⟨rfl, rfl, rfl, rfl⟩

/-! ## Structure of the many-selection copy -/

theorem prepare_copying_blocks :
    ∀ (bs : List Block) (conns : List Connection) (plot : Plot)
      (ids : List Nat),
      (prepare_copying bs conns plot ids).1 = bs.map (fun b =>
        { b with
          outputs := (b.outputs.map (copyOutputSlot plot ids)).map Prod.fst,
          inputs := b.inputs.map (copyInputSlot plot ids) })
  | [], _, _, _ => rfl
  | b :: bs, conns, plot, ids => by
    simp only [prepare_copying, List.map_cons]
    rw [prepare_copying_blocks bs]

theorem prepare_copying_conns :
    ∀ (bs : List Block) (conns : List Connection) (plot : Plot)
      (ids : List Nat),
      (prepare_copying bs conns plot ids).2 = conns ++
        (bs.map (fun b =>
          ((b.outputs.map (copyOutputSlot plot ids)).map Prod.snd).flatten)).flatten
  | [], conns, _, _ => by simp [prepare_copying]
  | b :: bs, conns, plot, ids => by
    simp only [prepare_copying, List.map_cons, List.flatten_cons]
    rw [prepare_copying_conns bs]
    rw [List.append_assoc]

/-- The equation of `From<&Plot> for Clipboard` on a many-selection. -/
theorem from_plot_many (plot : Plot) (sels : List Selectable)
    (hsel : plot.selection = .Many sels) :
    Clipboard.from_plot plot = .Blocks
      (prepare_copying (eligible_blocks plot sels) [] plot
        ((eligible_blocks plot sels).map Block.id)).1
      (prepare_copying (eligible_blocks plot sels) [] plot
        ((eligible_blocks plot sels).map Block.id)).2 := by
  unfold Clipboard.from_plot
  rw [hsel]

/-- A plot holding one `unique` block, selected via a many-selection: the
capture input for the C3 counterexample. -/
def uniqueOnlyPlot : Plot :=
  { blocks := [(1,
      { id := 1, module_id := "M", position := ⟨0, 0⟩, highlighted := false,
        unique := true, inputs := [none], outputs := [none] })],
    connections := [],
    selection := .Many [.Block 1] }

/-- C3 counterexample: capturing a many-selection that contains only
`unique` blocks does *not* yield the `Clipboard::Empty` variant — the
`Selection::Many` arm of `From<&Plot>` always builds a `Clipboard::Blocks`
payload, here one with empty block and connection lists. -/
theorem c3_counterexample_many_unique :
    Clipboard.from_plot uniqueOnlyPlot = .Blocks [] [] ∧
    Clipboard.from_plot uniqueOnlyPlot ≠ .Empty := by
  constructor
  · rfl
  · decide

/-- C3 (amended): for the single-selection shape, a selection of a missing
or `unique` block captures to `Clipboard::Empty`; for the many-selection
shape, a selection with no eligible (existing, non-`unique`) block captures
to a *contentwise empty* `Clipboard::Blocks` payload (empty block and
connection lists), not to the `Clipboard::Empty` variant. -/
theorem c3_amended_unique_selection_capture (plot : Plot) :
    (∀ id port, plot.selection = .Single (.Block id) port →
      (plot.get_block id = none → Clipboard.from_plot plot = .Empty) ∧
      (∀ b, plot.get_block id = some b → b.unique = true →
        Clipboard.from_plot plot = .Empty)) ∧
    (∀ sels, plot.selection = .Many sels →
      (∀ i ∈ sels.filterMap Selectable.block_id, ∀ b,
        plot.get_block i = some b → b.unique = true) →
      Clipboard.from_plot plot = .Blocks [] []) := by
  constructor
  · intro id port hsel
    constructor
    · intro hget
      simp only [Clipboard.from_plot, hsel, hget]
    · intro b hget huniq
      simp only [Clipboard.from_plot, hsel, hget, huniq]
      simp
  · intro sels hsel hall
    rw [from_plot_many plot sels hsel]
    have helig : eligible_blocks plot sels = [] := by
      unfold eligible_blocks
      rw [List.filterMap_eq_nil_iff]
      intro i hi
      rcases hget : plot.get_block i with _ | b
      · rfl
      · simp [hall i hi b hget]
    rw [helig]
    rfl

/-- C3 witness: the amended theorem applied to the unique-only plot (both
shapes). -/
theorem c3_amended_witness :
    Clipboard.from_plot uniqueOnlyPlot = .Blocks [] [] ∧
    Clipboard.from_plot
      { uniqueOnlyPlot with selection := .Single (.Block 1) none } = .Empty := by
  constructor
  · exact (c3_amended_unique_selection_capture uniqueOnlyPlot).2
      [.Block 1] rfl (by decide)
  · exact ((c3_amended_unique_selection_capture
      { uniqueOnlyPlot with selection := .Single (.Block 1) none }).1
      1 none rfl).2
      { id := 1, module_id := "M", position := ⟨0, 0⟩, highlighted := false,
        unique := true, inputs := [none], outputs := [none] }
      rfl rfl

theorem copyOutputSlot_some (plot : Plot) (ids : List Nat) (cid : Nat)
    (conn : Connection) (hconn : plot.get_connection cid = some conn) :
    copyOutputSlot plot ids (some cid) =
      if (conn.branches.filter (fun s => ids.contains s.dest.block_id)).isEmpty
      then (none, [])
      else (some cid, [{ conn with branches := conn.branches.filter (fun s =>
        ids.contains s.dest.block_id) }]) := by
  simp only [copyOutputSlot, hconn, Connection.remove_unselected_branches]

/-- C5: the many-selection capture.  Every selected non-`unique` block is
included (in order, identity and position preserved); for each output port
whose connection resolves, the connection is pruned to the branches landing
on selected blocks — the port is cleared exactly when pruning removes all
branches, and otherwise the port is kept and the pruned connection (with
any out-of-selection branch dropped) is included in the copied connection
list; each input port whose connection resolves is cleared unless the
connection's origin block is also in the selected block set. -/
theorem c5_many_selection_copy (plot : Plot) (sels : List Selectable)
    (bs : List Block) (ids : List Nat)
    (hsel : plot.selection = .Many sels)
    (hbs : bs = eligible_blocks plot sels)
    (hids : ids = bs.map Block.id) :
    (∀ b ∈ bs, b.unique = false) ∧
    Clipboard.from_plot plot =
      .Blocks (prepare_copying bs [] plot ids).1 (prepare_copying bs [] plot ids).2 ∧
    List.Forall₂ (fun b b' =>
      b'.id = b.id ∧ b'.position = b.position ∧
      List.Forall₂ (fun oi oi' =>
        match oi with
        | none => oi' = none
        | some cid =>
          match plot.get_connection cid with
          | none => oi' = some cid
          | some conn =>
            if (conn.branches.filter (fun s =>
                ids.contains s.dest.block_id)).isEmpty
            then oi' = none
            else oi' = some cid ∧
              { conn with branches := conn.branches.filter (fun s =>
                  ids.contains s.dest.block_id) } ∈
                (prepare_copying bs [] plot ids).2)
        b.outputs b'.outputs ∧
      List.Forall₂ (fun oi oi' =>
        match oi with
        | none => oi' = none
        | some cid =>
          match plot.get_connection cid with
          | none => oi' = some cid
          | some conn =>
            if ids.contains conn.origin.block_id
            then oi' = some cid
            else oi' = none)
        b.inputs b'.inputs)
      bs (prepare_copying bs [] plot ids).1 := by
  refine ⟨?_, ?_, ?_⟩
  · intro b hb
    rw [hbs] at hb
    unfold eligible_blocks at hb
    rcases List.mem_filterMap.mp hb with ⟨i, _, hbind⟩
    rcases hget : plot.get_block i with _ | blk
    · rw [hget] at hbind
      simp at hbind
    · rw [hget] at hbind
      rcases hu : blk.unique
      · simp only [Option.some_bind, hu, Bool.not_false, if_pos] at hbind
        injection hbind with hbind
        rw [← hbind]
        exact hu
      · simp [hu] at hbind
  · rw [from_plot_many plot sels hsel, ← hbs, ← hids]
  · rw [prepare_copying_blocks]
    rw [List.forall₂_map_right_iff]
    rw [List.forall₂_same]
    intro b hb
    refine ⟨rfl, rfl, ?_, ?_⟩
    · rw [List.map_map, List.forall₂_map_right_iff, List.forall₂_same]
      intro oi hoi
      rcases oi with _ | cid
      · rfl
      · simp only [Function.comp_apply]
        rcases hconn : plot.get_connection cid with _ | conn
        · simp only [copyOutputSlot, hconn]
        · simp only [hconn]
          rw [copyOutputSlot_some plot ids cid conn hconn]
          rcases hemp : (conn.branches.filter (fun s =>
              ids.contains s.dest.block_id)).isEmpty
          · rw [if_neg (by rw [hemp]; exact Bool.false_ne_true),
              if_neg (by rw [hemp]; exact Bool.false_ne_true)]
            refine ⟨rfl, ?_⟩
            rw [prepare_copying_conns, List.nil_append, List.mem_flatten]
            refine ⟨((b.outputs.map (copyOutputSlot plot ids)).map Prod.snd).flatten,
              List.mem_map_of_mem _ hb, ?_⟩
            rw [List.mem_flatten]
            refine ⟨[{ conn with branches := conn.branches.filter (fun s =>
              ids.contains s.dest.block_id) }], ?_, List.mem_singleton.mpr rfl⟩
            rw [List.map_map]
            have hsnd : (Prod.snd ∘ copyOutputSlot plot ids) (some cid) =
                [{ conn with branches := conn.branches.filter (fun s =>
                  ids.contains s.dest.block_id) }] := by
              rw [Function.comp_apply, copyOutputSlot_some plot ids cid conn hconn]
              rw [if_neg (by rw [hemp]; exact Bool.false_ne_true)]
            rw [← hsnd]
            exact List.mem_map_of_mem _ hoi
          · rw [if_pos hemp, if_pos hemp]
    · rw [List.forall₂_map_right_iff, List.forall₂_same]
      intro oi hoi
      rcases oi with _ | cid
      · rfl
      · rcases hconn : plot.get_connection cid with _ | conn
        · simp only [copyInputSlot, hconn]
        · simp only [hconn]
          rcases horig : ids.contains conn.origin.block_id
          · rw [if_neg Bool.false_ne_true]
            simp only [copyInputSlot, hconn, horig]
            rfl
          · rw [if_pos rfl]
            simp only [copyInputSlot, hconn, horig]
            rfl

/-- C5 witness input: a plot with three blocks where the connection from
block 1 branches to block 2 (selected) and block 3 (not selected), and
block 1's input comes from unselected block 3; blocks 1 and 2 are
selected. -/
def c5Plot : Plot :=
  { blocks :=
      [(1, { id := 1, module_id := "M", position := ⟨0, 0⟩, highlighted := false,
             unique := false, inputs := [some 11], outputs := [some 10] }),
       (2, { id := 2, module_id := "M", position := ⟨10, 0⟩, highlighted := false,
             unique := false, inputs := [some 10], outputs := [none] }),
       (3, { id := 3, module_id := "M", position := ⟨20, 0⟩, highlighted := false,
             unique := false, inputs := [none], outputs := [some 11] })],
    connections :=
      [(10, { id := 10, origin := ⟨1, 0⟩,
              branches := [⟨⟨2, 0⟩, none⟩, ⟨⟨3, 0⟩, none⟩] }),
       (11, { id := 11, origin := ⟨3, 0⟩, branches := [⟨⟨1, 0⟩, none⟩] })],
    selection := .Many [.Block 1, .Block 2] }

/-- The eligible blocks of `c5Plot`'s selection. -/
def c5Blocks : List Block :=
  [{ id := 1, module_id := "M", position := ⟨0, 0⟩, highlighted := false,
     unique := false, inputs := [some 11], outputs := [some 10] },
   { id := 2, module_id := "M", position := ⟨10, 0⟩, highlighted := false,
     unique := false, inputs := [some 10], outputs := [none] }]

/-- C5 witness: the theorem applied to `c5Plot`. -/
theorem c5_witness :
    (∀ b ∈ c5Blocks, b.unique = false) ∧
    Clipboard.from_plot c5Plot = .Blocks
      (prepare_copying c5Blocks [] c5Plot [1, 2]).1
      (prepare_copying c5Blocks [] c5Plot [1, 2]).2 :=
  ⟨(c5_many_selection_copy c5Plot [.Block 1, .Block 2] c5Blocks [1, 2]
      rfl (by decide) (by decide)).1,
   (c5_many_selection_copy c5Plot [.Block 1, .Block 2] c5Blocks [1, 2]
      rfl (by decide) (by decide)).2.1⟩

/-- C9: stopping the simulation always leaves no running simulator; the
stop joins (blocks on) the execution context exactly when a simulator was
running; stopping with no simulator running — in particular a second
consecutive stop — is a no-op that performs no join; and after a stop
returns, no tick changes the application state. -/
theorem c9_stop_simulation_blocking_idempotent (a : ApplicationTemplate) :
    a.stop_simulation.1.simulator = none ∧
    (∀ s, a.simulator = some s →
      a.stop_simulation = (⟨none⟩, true)) ∧
    (a.simulator = none → a.stop_simulation = (a, false)) ∧
    a.stop_simulation.1.stop_simulation = (a.stop_simulation.1, false) ∧
    (∀ n, ApplicationTemplate.tick^[n] a.stop_simulation.1 =
      a.stop_simulation.1) := by
  rcases a with ⟨_ | s⟩
  · refine ⟨rfl, ?_, fun _ => rfl, rfl, ?_⟩
    · intro s h
      simp at h
    · intro n
      induction n with
      | zero => rfl
      | succ n ih => rw [Function.iterate_succ_apply, show
          (ApplicationTemplate.tick ((⟨none⟩ : ApplicationTemplate).stop_simulation).1) =
            ((⟨none⟩ : ApplicationTemplate).stop_simulation).1 from rfl, ih]
  · refine ⟨rfl, fun _ _ => rfl, ?_, rfl, ?_⟩
    · intro h
      simp at h
    · intro n
      induction n with
      | zero => rfl
      | succ n ih => rw [Function.iterate_succ_apply, show
          (ApplicationTemplate.tick ((⟨some s⟩ : ApplicationTemplate).stop_simulation).1) =
            ((⟨some s⟩ : ApplicationTemplate).stop_simulation).1 from rfl, ih]

/-- C9 witness: the theorem applied to an application with one running
simulator: the stop joins it, a second stop is a joinless no-op, and no
tick occurs after the stop. -/
theorem c9_witness :
    (⟨some ⟨0⟩⟩ : ApplicationTemplate).stop_simulation = (⟨none⟩, true) ∧
    (⟨some ⟨0⟩⟩ : ApplicationTemplate).stop_simulation.1.stop_simulation =
      ((⟨some ⟨0⟩⟩ : ApplicationTemplate).stop_simulation.1, false) ∧
    ApplicationTemplate.tick^[3]
        (⟨some ⟨0⟩⟩ : ApplicationTemplate).stop_simulation.1 =
      (⟨some ⟨0⟩⟩ : ApplicationTemplate).stop_simulation.1 :=
  ⟨(c9_stop_simulation_blocking_idempotent ⟨some ⟨0⟩⟩).2.1 ⟨0⟩ rfl,
   (c9_stop_simulation_blocking_idempotent ⟨some ⟨0⟩⟩).2.2.2.1,
   (c9_stop_simulation_blocking_idempotent ⟨some ⟨0⟩⟩).2.2.2.2 3⟩

/-! ## Dependency collection -/

@[simp] theorem lookupModule_nil (n : String) :
    lookupModule [] n = none := rfl

theorem lookupModule_cons (k : String) (m : Module)
    (rest : List (String × Module)) (n : String) :
    lookupModule ((k, m) :: rest) n =
      if k = n then some m else lookupModule rest n := by
  unfold lookupModule
  rcases h : decide (k = n) with _ | _
  · rw [List.find?_cons_of_neg _ (by simpa using h), if_neg (by simpa using h)]
  · rw [List.find?_cons_of_pos _ (by simpa using h), if_pos (by simpa using h)]
    rfl

/-- A module whose table entry has no plot contributes nothing. -/
theorem collect_dependencies_no_plot (p : Project) (fuel : Nat) (name : String)
    (acc : List (String × Module))
    (h : (lookupModule p.modules name).bind Module.plot = none) :
    collect_dependencies p fuel name acc = acc := by
  cases fuel with
  | zero => rfl
  | succ f =>
    unfold collect_dependencies
    rw [h]

/-- A fold whose step fixes the accumulator on every element of the list
leaves the accumulator unchanged. -/
theorem foldl_skip {α β : Type} (g : α → β → α) :
    ∀ (l : List β) (a : α), (∀ b ∈ l, g a b = a) → l.foldl g a = a
  | [], _, _ => rfl
  | b :: l, a, h => by
    rw [List.foldl_cons, h b (List.mem_cons_self b l)]
    exact foldl_skip g l a (fun b' hb' => h b' (List.mem_cons_of_mem _ hb'))

/-- C8: for a module `A` whose plot instances module `B` (through any
non-zero number of blocks) and a module `B` whose plot instances module
`C` (with no further dependencies), `collect_dependencies` starting from
`A` with an empty accumulator produces exactly `{B, C}`, each collected
exactly once however many blocks of `A`'s plot instance `B`, and the
result is the same for every sufficient recursion budget — the walk never
revisits an already-collected module. -/
theorem c8_collect_dependencies_chain (p : Project) (nA nB nC : String)
    (mA mB mC : Module) (plotA plotB : Plot) (fuel : Nat)
    (hBC : nB ≠ nC)
    (hA : lookupModule p.modules nA = some mA) (hAp : mA.plot = some plotA)
    (hB : lookupModule p.modules nB = some mB) (hBp : mB.plot = some plotB)
    (hBn : mB.name = nB) (hBb : mB.builtin = false)
    (hC : lookupModule p.modules nC = some mC) (hCp : mC.plot = none)
    (hCn : mC.name = nC) (hCb : mC.builtin = false)
    (hAne : plotA.blocks ≠ []) (hAall : ∀ ib ∈ plotA.blocks, ib.2.module_id = nB)
    (hBne : plotB.blocks ≠ []) (hBall : ∀ ib ∈ plotB.blocks, ib.2.module_id = nC)
    (hfuel : 2 ≤ fuel) :
    collect_dependencies p fuel nA [] = [(nB, mB), (nC, mC)] := by
  obtain ⟨f, rfl⟩ : ∃ f, fuel = f + 1 + 1 := ⟨fuel - 2, by omega⟩
  have h5c : collect_dependencies p f nC [(nB, mB), (nC, mC)] =
      [(nB, mB), (nC, mC)] :=
    collect_dependencies_no_plot p f nC _ (by rw [hC, Option.some_bind, hCp])
  have hlkBC : lookupModule [(nB, mB)] nC = none := by
    rw [lookupModule_cons, if_neg hBC]
    rfl
  have hlkCC : lookupModule [(nB, mB), (nC, mC)] nC = some mC := by
    rw [lookupModule_cons, if_neg hBC, lookupModule_cons, if_pos rfl]
  have hlkBB : lookupModule [(nB, mB), (nC, mC)] nB = some mB := by
    rw [lookupModule_cons, if_pos rfl]
  obtain ⟨jb, rest2, hcons2⟩ : ∃ jb rest2, plotB.blocks = jb :: rest2 := by
    cases hpb : plotB.blocks with
    | nil => exact absurd hpb hBne
    | cons x xs => exact ⟨x, xs, rfl⟩
  rw [hcons2] at hBall
  have hstep5 : collect_dependencies p (f + 1) nB [(nB, mB)] =
      [(nB, mB), (nC, mC)] := by
    simp only [collect_dependencies]
    simp only [hB, Option.some_bind, hBp]
    rw [hcons2]
    simp only [List.foldl_cons]
    rw [hBall jb (List.mem_cons_self jb rest2)]
    simp only [hC]
    rw [hCn]
    rw [show (!mC.builtin && (lookupModule [(nB, mB)] nC).isNone) = true from by
      rw [hCb, hlkBC]
      rfl]
    rw [if_pos rfl]
    simp only [List.singleton_append]
    rw [h5c]
    apply foldl_skip
    intro ib' hib'
    simp only [hBall ib' (List.mem_cons_of_mem jb hib'), hC, hCn, hlkCC,
      Option.isNone_some, Bool.and_false]
    rfl
  rw [collect_dependencies.eq_2]
  simp only [hA, Option.some_bind, hAp]
  obtain ⟨ib0, rest, hcons⟩ : ∃ ib0 rest, plotA.blocks = ib0 :: rest := by
    cases hpa : plotA.blocks with
    | nil => exact absurd hpa hAne
    | cons x xs => exact ⟨x, xs, rfl⟩
  rw [hcons] at hAall
  rw [hcons]
  simp only [List.foldl_cons]
  rw [hAall ib0 (List.mem_cons_self ib0 rest)]
  simp only [hB]
  rw [hBn]
  rw [show (!mB.builtin && (lookupModule ([] : List (String × Module)) nB).isNone) =
      true from by
    rw [hBb]
    rfl]
  rw [if_pos rfl]
  simp only [List.nil_append]
  rw [hstep5]
  apply foldl_skip
  intro ib' hib'
  simp only [hAall ib' (List.mem_cons_of_mem ib0 hib'), hB, hBn, hlkBB,
    Option.isNone_some, Bool.and_false]
  rfl

/-- C8 witness data: module `A` instancing `B` through two blocks, `B`
instancing `C` once, `C` primitive. -/
def c8ModC : Module :=
  { name := "C", builtin := false, plot := none, io_blocks := none,
    num_inputs := 1, num_outputs := 1 }

/-- C8 witness data: module `B`. -/
def c8ModB : Module :=
  { name := "B", builtin := false,
    plot := some
      { blocks := [(5,
          { id := 5, module_id := "C", position := ⟨0, 0⟩, highlighted := false,
            unique := false, inputs := [], outputs := [] })],
        connections := [], selection := .NoSelection },
    io_blocks := none, num_inputs := 1, num_outputs := 1 }

/-- C8 witness data: module `A`, instancing `B` twice. -/
def c8ModA : Module :=
  { name := "A", builtin := false,
    plot := some
      { blocks := [(1,
          { id := 1, module_id := "B", position := ⟨0, 0⟩, highlighted := false,
            unique := false, inputs := [], outputs := [] }),
        (2,
          { id := 2, module_id := "B", position := ⟨10, 0⟩, highlighted := false,
            unique := false, inputs := [], outputs := [] })],
        connections := [], selection := .NoSelection },
    io_blocks := none, num_inputs := 1, num_outputs := 1 }

/-- C8 witness data: the project holding the `A → B → C` chain. -/
def c8Project : Project :=
  { modules := [("A", c8ModA), ("B", c8ModB), ("C", c8ModC)],
    main_plot := Plot.new, tps := 10 }

/-- C8 witness: the theorem applied to the concrete chain project with two
`B`-instancing blocks and fuel 5. -/
theorem c8_witness :
    collect_dependencies c8Project 5 "A" [] = [("B", c8ModB), ("C", c8ModC)] :=
  c8_collect_dependencies_chain c8Project "A" "B" "C" c8ModA c8ModB c8ModC
    { blocks := [(1,
        { id := 1, module_id := "B", position := ⟨0, 0⟩, highlighted := false,
          unique := false, inputs := [], outputs := [] }),
      (2,
        { id := 2, module_id := "B", position := ⟨10, 0⟩, highlighted := false,
          unique := false, inputs := [], outputs := [] })],
      connections := [], selection := .NoSelection }
    { blocks := [(5,
        { id := 5, module_id := "C", position := ⟨0, 0⟩, highlighted := false,
          unique := false, inputs := [], outputs := [] })],
      connections := [], selection := .NoSelection }
    5 (by decide) rfl rfl rfl rfl rfl rfl rfl rfl rfl rfl
    (by decide) (by decide) (by decide) (by decide) (by decide)

/-! ## Serialization round-trip -/

theorem lookupModule_some (l : List (String × Module)) (n : String) (m : Module)
    (h : lookupModule l n = some m) : (n, m) ∈ l := by
  unfold lookupModule at h
  rcases hf : l.find? (fun nm => nm.1 = n) with _ | nm
  · rw [hf] at h
    simp at h
  · rw [hf] at h
    have h1 := List.find?_some hf
    have h2 := List.mem_of_find?_eq_some hf
    rcases nm with ⟨k, mm⟩
    simp only [Option.map_some'] at h
    injection h with h
    simp only [decide_eq_true_eq] at h1
    rw [← h, ← h1]
    exact h2

theorem lookup_insertModule :
    ∀ (l : List (String × Module)) (m : Module) (n : String),
      lookupModule (insertModule l m) n =
        if m.name = n then some m else lookupModule l n
  | [], m, n => by
    unfold insertModule
    rw [lookupModule_cons]
  | (k, m0) :: rest, m, n => by
    unfold insertModule
    by_cases hk : k = m.name
    · rw [if_pos hk, lookupModule_cons, lookupModule_cons]
      by_cases hmn : m.name = n
      · rw [if_pos hmn, if_pos hmn]
      · rw [if_neg hmn, if_neg hmn, if_neg (by rw [hk]; exact hmn)]
    · rw [if_neg hk, lookupModule_cons, lookup_insertModule rest m n,
        lookupModule_cons]
      by_cases hkn : k = n
      · rw [if_pos hkn, if_neg (by rw [← hkn]; exact fun h => hk h.symm),
          if_pos hkn]
      · rw [if_neg hkn, if_neg hkn]

theorem add_module_primitive (p : Project) (m : Module) (ctr : Nat)
    (h : m.plot = none) :
    p.add_module m ctr =
      some ({ p with modules := insertModule p.modules m }, ctr) := by
  unfold Project.add_module
  rw [h]
  rfl

theorem foldlM_add_primitive :
    ∀ (ms : List Module) (p : Project) (ctr : Nat),
      (∀ m ∈ ms, m.plot = none) →
      ms.foldlM (fun s m => Project.add_module s.1 m s.2) (p, ctr) =
        some (ms.foldl
          (fun q m => { q with modules := insertModule q.modules m }) p, ctr)
  | [], _, _, _ => rfl
  | m :: ms, p, ctr, h => by
    rw [List.foldlM_cons, add_module_primitive p m ctr (h m (List.mem_cons_self m ms))]
    simp only [Option.bind_eq_bind, Option.some_bind]
    exact foldlM_add_primitive ms _ ctr
      (fun m' hm' => h m' (List.mem_cons_of_mem _ hm'))

theorem fold_insert_plot_tps :
    ∀ (ms : List Module) (q : Project),
      (ms.foldl (fun q m => { q with modules := insertModule q.modules m })
        q).main_plot = q.main_plot ∧
      (ms.foldl (fun q m => { q with modules := insertModule q.modules m })
        q).tps = q.tps
  | [], _ => ⟨rfl, rfl⟩
  | m :: ms, q => by
    rw [List.foldl_cons]
    exact fold_insert_plot_tps ms _

theorem lookup_fold_insert :
    ∀ (ms : List Module) (q : Project) (n : String),
      (ms.map Module.name).Nodup →
      lookupModule ((ms.foldl
          (fun q m => { q with modules := insertModule q.modules m }) q).modules)
        n =
        match ms.find? (fun m => m.name = n) with
        | some m => some m
        | none => lookupModule q.modules n
  | [], _, _, _ => rfl
  | m :: ms, q, n, hnodup => by
    rw [List.foldl_cons, lookup_fold_insert ms _ n (List.Nodup.of_cons hnodup)]
    rcases hfind : ms.find? (fun m => m.name = n) with _ | m'
    · rw [hfind]
      rw [lookup_insertModule]
      by_cases hmn : m.name = n
      · rw [List.find?_cons_of_pos _ (by simpa using hmn), if_pos hmn]
      · rw [List.find?_cons_of_neg _ (by simpa using hmn), hfind, if_neg hmn]
    · rw [hfind]
      have h1 := List.find?_some hfind
      have h2 := List.mem_of_find?_eq_some hfind
      simp only [decide_eq_true_eq] at h1
      have hmn : ¬ (m.name = n) := by
        intro hmn
        have hin : m.name ∈ ms.map Module.name :=
          List.mem_map.mpr ⟨m', h2, by rw [h1, hmn]⟩
        exact (List.nodup_cons.mp hnodup).1 hin
      rw [List.find?_cons_of_neg _ (by simpa using hmn), hfind]

theorem lookupModule_eq_none (l : List (String × Module)) (n : String)
    (h : ∀ nm ∈ l, nm.1 ≠ n) : lookupModule l n = none := by
  unfold lookupModule
  rw [List.find?_eq_none.mpr]
  · rfl
  · intro nm hnm
    simpa using h nm hnm

theorem lookup_filter_not_builtin :
    ∀ (l : List (String × Module)) (n : String),
      (l.map Prod.fst).Nodup →
      lookupModule (l.filter (fun nm => !nm.2.builtin)) n =
        match lookupModule l n with
        | some m => if m.builtin then none else some m
        | none => none
  | [], _, _ => rfl
  | (k, m0) :: rest, n, hnodup => by
    have hknotin : k ∉ List.map Prod.fst rest :=
      (List.nodup_cons.mp (by simpa using hnodup)).1
    have hrtl := lookup_filter_not_builtin rest n (List.Nodup.of_cons hnodup)
    rw [List.filter_cons]
    by_cases hkn : k = n
    · have hrest : lookupModule rest n = none :=
        lookupModule_eq_none rest n (fun nm hnm heq =>
          hknotin (List.mem_map.mpr ⟨nm, hnm, heq.trans hkn.symm⟩))
      rw [show lookupModule ((k, m0) :: rest) n = some m0 from by
        rw [lookupModule_cons, if_pos hkn]]
      rcases hb : m0.builtin
      · rw [if_pos (by decide : (!false) = true), lookupModule_cons, if_pos hkn]
        show some m0 = if m0.builtin = true then none else some m0
        rw [hb, if_neg Bool.false_ne_true]
      · rw [if_neg (by decide : ¬ (!true) = true), hrtl, hrest]
        show none = if m0.builtin = true then none else some m0
        rw [hb, if_pos rfl]
    · rw [show lookupModule ((k, m0) :: rest) n = lookupModule rest n from by
        rw [lookupModule_cons, if_neg hkn]]
      rcases hb : m0.builtin
      · rw [if_pos (by decide : (!false) = true), lookupModule_cons,
          if_neg hkn, hrtl]
      · rw [if_neg (by decide : ¬ (!true) = true), hrtl]

theorem update_plots_id (q : Project) : q.update_plots = q := by
  unfold Project.update_plots Plot.update_all_blocks
  simp

/-- C4: serializing a project and loading the serialized document back
succeeds and yields a project with the same module table (entry for entry,
under lookup), the same main plot, and the same ticks-per-second value —
modulo the builtin modules, which are excluded when writing and re-inserted
from the current builtin set on load.  The hypotheses are the project
invariants of spec section 3: entries are keyed by their module's name,
keys are unique, and the table's builtin-flagged entries are exactly the
current builtin registry. -/
theorem c4_serialize_load_roundtrip (p : Project) (ctr : Nat)
    (hkeys : ∀ nm ∈ p.modules, nm.2.name = nm.1)
    (hnodup : (p.modules.map Prod.fst).Nodup)
    (hbuiltin_in : ∀ m ∈ BUILTINS, lookupModule p.modules m.name = some m)
    (hbuiltin_only : ∀ nm ∈ p.modules, nm.2.builtin = true → nm.2 ∈ BUILTINS) :
    ∃ p', Project.load_from p.serialize_doc ctr = some (p', ctr) ∧
      (∀ n, lookupModule p'.modules n = lookupModule p.modules n) ∧
      p'.main_plot = p.main_plot ∧ p'.tps = p.tps := by
  refine ⟨BUILTINS.foldl
    (fun q m => { q with modules := insertModule q.modules m })
    p.serialize_doc, ?_, ?_, ?_, ?_⟩
  · unfold Project.load_from
    rw [foldlM_add_primitive BUILTINS p.serialize_doc ctr (by decide)]
    rw [Option.map_some', update_plots_id]
  · intro n
    rw [lookup_fold_insert BUILTINS p.serialize_doc n (by decide)]
    rcases hfind : BUILTINS.find? (fun m => m.name = n) with _ | b
    · rw [hfind]
      have hdocn : lookupModule p.serialize_doc.modules n =
          match lookupModule p.modules n with
          | some m => if m.builtin then none else some m
          | none => none := by
        unfold Project.serialize_doc
        exact lookup_filter_not_builtin p.modules n hnodup
      rw [hdocn]
      rcases hlk : lookupModule p.modules n with _ | m
      · rfl
      · have hmem := lookupModule_some p.modules n m hlk
        show (if m.builtin = true then none else some m) = some m
        rcases hbm : m.builtin
        · rw [if_neg Bool.false_ne_true]
        · exfalso
          have hB : m ∈ BUILTINS := hbuiltin_only (n, m) hmem hbm
          have hname : m.name = n := hkeys (n, m) hmem
          have hno := List.find?_eq_none.mp hfind m hB
          simp only [decide_eq_true_eq] at hno
          exact hno hname
    · rw [hfind]
      have h1 := List.find?_some hfind
      have h2 := List.mem_of_find?_eq_some hfind
      simp only [decide_eq_true_eq] at h1
      rw [← h1]
      exact (hbuiltin_in b h2).symm
  · exact (fold_insert_plot_tps BUILTINS p.serialize_doc).1
  · exact (fold_insert_plot_tps BUILTINS p.serialize_doc).2

/-- C4 witness data: a project holding the builtin registry plus one user
module. -/
def c4Project : Project :=
  { modules := BUILTINS.map (fun m => (m.name, m)) ++
      [("U", { name := "U", builtin := false, plot := none, io_blocks := none,
               num_inputs := 2, num_outputs := 2 })],
    main_plot := Plot.new, tps := 42 }

/-- C4 witness: the round-trip theorem applied to the concrete project. -/
theorem c4_witness :
    ∃ p', Project.load_from c4Project.serialize_doc 7 = some (p', 7) ∧
      (∀ n, lookupModule p'.modules n = lookupModule c4Project.modules n) ∧
      p'.main_plot = c4Project.main_plot ∧ p'.tps = c4Project.tps :=
  c4_serialize_load_roundtrip c4Project 7
    (by decide) (by decide) (by decide) (by decide)

end LogicRs
